import Mathlib

/-!
Shallow embedding of the Reverb replay-service implementation
(`reverb/cc/reverb_service_impl.cc`).

Pure control flow of the handlers is translated into executable Lean
functions.  External collaborators (the gRPC transport, `ChunkStore`,
`Table`, `getpid`) are modelled as explicit inputs: the sequence of
successfully read requests stands for the wire, boolean oracles stand for
`stream->Write` success, `context->IsCancelled()` and store closure, and a
result oracle stands for `Table::SampleFlexibleBatch`.  Machine integers of
the protos are modelled as `Int`/`Nat`; the byte size of a protobuf entry is
abstracted by the sum of the payload sizes of the chunks it carries.
-/

set_option linter.unusedVariables false

/-- gRPC status codes used by `reverb_service_impl.cc`. -/
inductive StatusCode where
  | ok
  | cancelled
  | invalidArgument
  | notFound
  | internal
  | deadlineExceeded
  deriving DecidableEq, Repr

/-- A `grpc::Status`: a code together with an error message. -/
structure GrpcStatus where
  code : StatusCode
  message : String
  deriving DecidableEq, Repr

/-- The value `grpc::Status::OK`. -/
def statusOK : GrpcStatus := ⟨.ok, ""⟩

/-- Helper `TableNotFound` of `reverb_service_impl.cc` (line 52): NOT_FOUND with
message `"Priority table <name> was not found"`. -/
def tableNotFound (tname : String) : GrpcStatus :=
  ⟨.notFound, "Priority table " ++ tname ++ " was not found"⟩

/-- Helper `Internal` of `reverb_service_impl.cc` (line 57). -/
def internalStatus (message : String) : GrpcStatus := ⟨.internal, message⟩

/-- A `ChunkData` proto: a trajectory chunk identified by `chunk_key`.
`size` abstracts the serialized byte size the chunk contributes to a
response entry (`ByteSizeLong` of the data it carries). -/
structure ChunkData where
  chunk_key : Nat
  size : Nat
  deriving DecidableEq, Repr

/-- Constant `kMaxSampleResponseSizeBytes = 40 * 1024 * 1024` (line 50). -/
def kMaxSampleResponseSizeBytes : Nat := 40 * 1024 * 1024

/-- One entry of a `SampleStreamResponse` frame.  The handler writes one entry
per frame (`response.add_entries()` is called exactly once per outgoing
response), so an emitted `Entry` stands for one written frame. -/
structure Entry where
  end_of_sequence : Bool
  has_info : Bool
  data : List ChunkData
  deriving DecidableEq, Repr

/-- Abstraction of `entry->ByteSizeLong()`: the total payload size of the
chunks accumulated in the entry.  This is a lower bound of the real proto
size, and it is the quantity the 40 MiB check of the handler is about. -/
def entryByteSize (e : Entry) : Nat := (e.data.map ChunkData.size).sum

/-- The entry after one iteration of the chunk loop of `SampleStreamInternal`
(lines 326-344): `end_of_sequence` is rewritten for the appended chunk, the
info is attached when `chunk_idx == 0`, and the chunk data is appended. -/
def nextEntry (cur : Entry) (idx total : Nat) (c : ChunkData) : Entry :=
  { end_of_sequence := decide (idx + 1 = total)
    has_info := if idx = 0 then true else cur.has_info
    data := cur.data ++ [c] }

/-- A fresh entry, as produced by `response.Clear(); entry = response.add_entries()`. -/
def emptyEntry : Entry := ⟨false, false, []⟩

/-- The chunk loop of `SampleStreamInternal` (lines 326-372) for one sampled
item: append the chunk to the current entry; if more chunks remain and the
entry is still below `kMaxSampleResponseSizeBytes`, keep accumulating,
otherwise write the frame and start a fresh entry.  Returns the list of
written frames. -/
def emitSampleGo (total : Nat) : Entry → Nat → List ChunkData → List Entry
  | _, _, [] => []
  | cur, idx, c :: rest =>
    let e := nextEntry cur idx total c
    if idx < total - 1 ∧ entryByteSize e < kMaxSampleResponseSizeBytes then
      emitSampleGo total e (idx + 1) rest
    else
      e :: emitSampleGo total emptyEntry (idx + 1) rest

/-- The frames written for one `SampledItem` whose trajectory chunks are
`chunks` (lines 322-372 of `reverb_service_impl.cc`). -/
def emitSample (chunks : List ChunkData) : List Entry :=
  emitSampleGo chunks.length emptyEntry 0 chunks

/-- A `PrioritizedItem` proto as far as the insert handler inspects it:
`key`, target `table` name and the chunk keys referenced by its
`flat_trajectory` (the output of `internal::GetChunkKeys`, which lives in
`support/trajectory_util` outside these sources). -/
structure PrioritizedItem where
  key : Nat
  table : String
  trajectoryChunkKeys : List Nat
  deriving DecidableEq, Repr

/-- The `item` field of an `InsertStreamRequest`. -/
structure InsertItem where
  item : PrioritizedItem
  keep_chunk_keys : List Nat
  send_confirmation : Bool
  deriving DecidableEq, Repr

/-- An `InsertStreamRequest`: chunks plus an optional item. -/
structure InsertStreamRequest where
  chunks : List ChunkData
  item : Option InsertItem
  deriving DecidableEq, Repr

/-- A call of `Table::InsertOrAssign` made by the insert handler: target
table, the item, and the shared chunks resolved for it. -/
structure InsertEvent where
  table : String
  item : PrioritizedItem
  chunks : List ChunkData
  deriving DecidableEq, Repr

/-- How an insert stream terminates abnormally: a returned `grpc::Status`, or
the fatal `REVERB_CHECK_EQ(chunks.size(), keep_keys.size())` (line 234). -/
inductive InsertErr where
  | status (s : GrpcStatus)
  | fatalCheck
  deriving DecidableEq, Repr

/-- Per-stream mutable state of `InsertStreamInternal`: the `chunks` map
(`pending_chunks`), plus counters numbering the `ChunkStore::Insert` calls
and the `stream->Write` calls so that the environment oracles can be
indexed. -/
structure InsertState where
  pending : List (Nat × ChunkData)
  calls : Nat
  writes : Nat
  deriving DecidableEq, Repr

/-- The external collaborators of `InsertStreamInternal`:
`closeAfter = some n` means the `ChunkStore` is closed from the `n`-th
`Insert` call on (`Insert` then returns no chunk); `insertOrAssignStatus`
is the status of `Table::InsertOrAssign` (`none` = OK); `writeOk` tells
whether the `i`-th `stream->Write` succeeds. -/
structure InsertEnv where
  closeAfter : Option Nat
  insertOrAssignStatus : PrioritizedItem → Option GrpcStatus
  writeOk : Nat → Bool

/-- Whether the `ChunkStore::Insert` call number `callIdx` returns a chunk
(the store is not yet closed). -/
def storeInsertOk (closeAfter : Option Nat) (callIdx : Nat) : Bool :=
  match closeAfter with
  | none => true
  | some n => decide (callIdx < n)

/-- Assign-or-insert on the pending-chunks map, the effect of
`chunks[key] = std::move(chunk_sp)` on a `flat_hash_map`. -/
def mapInsert (m : List (Nat × ChunkData)) (k : Nat) (v : ChunkData) :
    List (Nat × ChunkData) :=
  match m with
  | [] => [(k, v)]
  | p :: rest => if p.1 = k then (k, v) :: rest else p :: mapInsert rest k v

/-- Lookup in the pending-chunks map (`chunks.find(key)`). -/
def lookupChunk (m : List (Nat × ChunkData)) (k : Nat) : Option ChunkData :=
  match m with
  | [] => none
  | p :: rest => if p.1 = k then some p.2 else lookupChunk rest k

/-- The first trajectory chunk key that misses the pending-chunks map, if
any: the key whose lookup failure the handler reports. -/
def firstMissingKey (m : List (Nat × ChunkData)) : List Nat → Option Nat
  | [] => none
  | k :: ks =>
    match lookupChunk m k with
    | none => some k
    | some _ => firstMissingKey m ks

/-- The `push_or` resolution loop (lines 184-198): resolve every trajectory
chunk key against the pending map, in order; a missing key `k` fails with
`Internal("Could not find sequence chunk k.")`. -/
def resolveChunks (m : List (Nat × ChunkData)) :
    List Nat → Except InsertErr (List ChunkData)
  | [] => .ok []
  | k :: ks =>
    match lookupChunk m k with
    | none =>
      .error (.status (internalStatus
        ("Could not find sequence chunk " ++ toString k ++ ".")))
    | some c =>
      match resolveChunks m ks with
      | .error e => .error e
      | .ok cs => .ok (c :: cs)

/-- The retention loop (lines 227-233): erase from the pending map every
entry whose key is not in `keep_chunk_keys`. -/
def retainOnly (m : List (Nat × ChunkData)) (keep : List Nat) :
    List (Nat × ChunkData) :=
  m.filter (fun p => decide (p.1 ∈ keep))

/-- The per-request chunk loop (lines 170-179): insert each chunk into the
store and record the returned shared chunk in the pending map; a closed
store aborts the stream with `Cancelled("Service has been closed")`.  The
state reached so far is returned together with the error, if any. -/
def insertChunksLoop (closeAfter : Option Nat) :
    InsertState → List ChunkData → InsertState × Option InsertErr
  | st, [] => (st, none)
  | st, c :: rest =>
    if storeInsertOk closeAfter st.calls then
      insertChunksLoop closeAfter
        { pending := mapInsert st.pending c.chunk_key c
          calls := st.calls + 1
          writes := st.writes } rest
    else
      (st, some (.status ⟨.cancelled, "Service has been closed"⟩))

/-- Outcome of processing one `InsertStreamRequest`: the state afterwards,
the `InsertOrAssign` calls made, the confirmation keys written, and the
error that aborts the stream, if any. -/
structure InsertStepResult where
  state : InsertState
  events : List InsertEvent
  confirmations : List Nat
  err : Option InsertErr
  deriving DecidableEq, Repr

/-- Retention plus the fatal post-condition check (lines 223-235): shrink the
pending map to `keep_chunk_keys` and require
`chunks.size() == keep_keys.size()` (the set of keep keys, hence the
deduplicated length). -/
def finishRetention (st : InsertState) (evs : List InsertEvent)
    (confs : List Nat) (keep : List Nat) : InsertStepResult :=
  let pending' := retainOnly st.pending keep
  if pending'.length = keep.dedup.length then
    ⟨{ st with pending := pending' }, evs, confs, none⟩
  else
    ⟨{ st with pending := pending' }, evs, confs, some .fatalCheck⟩

/-- The item half of the request loop (lines 181-236): resolve the
trajectory chunks, look the table up, `InsertOrAssign`, optionally write a
confirmation, then retention and the fatal check. -/
def processItemPhase (tables : List String)
    (ioa : PrioritizedItem → Option GrpcStatus) (wOk : Nat → Bool)
    (st : InsertState) (ins : InsertItem) : InsertStepResult :=
  match resolveChunks st.pending ins.item.trajectoryChunkKeys with
  | .error e => ⟨st, [], [], some e⟩
  | .ok cs =>
    if tables.contains ins.item.table then
      match ioa ins.item with
      | some s => ⟨st, [], [], some (.status s)⟩
      | none =>
        let ev : InsertEvent := ⟨ins.item.table, ins.item, cs⟩
        if ins.send_confirmation then
          if wOk st.writes then
            finishRetention { st with writes := st.writes + 1 } [ev]
              [ins.item.key] ins.keep_chunk_keys
          else
            ⟨{ st with writes := st.writes + 1 }, [ev], [],
              some (.status (internalStatus
                ("Error when sending confirmation that item " ++
                  toString ins.item.key ++
                  " has been successfully inserted/updated.")))⟩
        else
          finishRetention st [ev] [] ins.keep_chunk_keys
    else ⟨st, [], [], some (.status (tableNotFound ins.item.table))⟩

/-- Processing of one popped `InsertStreamRequest` (lines 169-236). -/
def processRequest (tables : List String) (env : InsertEnv)
    (st : InsertState) (req : InsertStreamRequest) : InsertStepResult :=
  match insertChunksLoop env.closeAfter st req.chunks with
  | (st1, some e) => ⟨st1, [], [], some e⟩
  | (st1, none) =>
    match req.item with
    | none => ⟨st1, [], [], none⟩
    | some ins =>
      processItemPhase tables env.insertOrAssignStatus env.writeOk st1 ins

/-- Result of a whole insert stream: all `InsertOrAssign` calls, all
confirmations written, and the terminating error (`none` = the stream ended
with `grpc::Status::OK`). -/
structure InsertRunResult where
  events : List InsertEvent
  confirmations : List Nat
  err : Option InsertErr
  deriving DecidableEq, Repr

/-- The request loop of `InsertStreamInternal` over the queue of requests
read from the wire: process requests in order until the queue drains (OK) or
a request aborts the stream. -/
def insertStreamGo (tables : List String) (env : InsertEnv) :
    InsertState → List InsertStreamRequest → InsertRunResult
  | _, [] => ⟨[], [], none⟩
  | st, r :: rest =>
    let res := processRequest tables env st r
    match res.err with
    | some e => ⟨res.events, res.confirmations, some e⟩
    | none =>
      let tail := insertStreamGo tables env res.state rest
      ⟨res.events ++ tail.events, res.confirmations ++ tail.confirmations,
        tail.err⟩

/-- A whole `InsertStreamInternal` run: empty pending map, counters at 0. -/
def insertStreamRun (tables : List String) (env : InsertEnv)
    (reqs : List InsertStreamRequest) : InsertRunResult :=
  insertStreamGo tables env ⟨[], 0, 0⟩ reqs

/-- Total number of `ChunkStore::Insert` calls a request list provokes: one
per chunk of every request. -/
def totalChunks (reqs : List InsertStreamRequest) : Nat :=
  (reqs.map (fun r => r.chunks.length)).sum

/-- A table as far as `SampleStreamInternal` inspects it: its registered
name and `DefaultFlexibleBatchSize()` (the table itself is an external
collaborator). -/
structure Table where
  name : String
  defaultFlexibleBatchSize : Int
  deriving DecidableEq, Repr

/-- `ReverbServiceImpl::TableByName` (lines 382-386). -/
def TableByName (tables : List Table) (tname : String) : Option Table :=
  tables.find? (fun t => t.name == tname)

/-- An `absl::Duration` as the sample handler uses it: a finite number of
milliseconds or `absl::InfiniteDuration()`. -/
inductive RDuration where
  | finite (ms : Int)
  | infinite
  deriving DecidableEq, Repr

/-- The timeout computation of `SampleStreamInternal` (lines 284-288):
milliseconds of `rate_limiter_timeout` when the field is present, `-1`
otherwise; any negative duration becomes infinite. -/
def computeTimeout (rate_limiter_timeout : Option Int) : RDuration :=
  let ms : Int :=
    match rate_limiter_timeout with
    | some v => v
    | none => -1
  if ms < 0 then .infinite else .finite ms

/-- Modelled from the spec: `Sampler::kAutoSelectValue` is declared in
`reverb/cc/sampler.h`, which is not among these sources.  The spec calls it
the *AutoSelect* sentinel for `flexible_batch_size`, matching the client
sampler's sentinel; it is the negative sentinel `-1` (a positive value
would already pass the `flexible_batch_size() > 0` validation, so only a
non-positive sentinel needs the explicit equality escape the code has). -/
def kAutoSelectValue : Int := -1

/-- A `SampleStreamRequest` as the handler inspects it. -/
structure SampleStreamRequest where
  table : String
  num_samples : Int
  flexible_batch_size : Int
  rate_limiter_timeout : Option Int
  deriving DecidableEq, Repr

/-- A `Table::SampledItem` as far as the framing code needs it: the chunk
list of the referenced item, in trajectory order. -/
structure SampledItem where
  chunks : List ChunkData
  deriving DecidableEq, Repr

/-- One `Table::SampleFlexibleBatch` call made by the sample handler: the
`count` of samples already delivered for the current request when the call
was issued, the `max_batch_size` asked for, and the rate-limiter timeout
passed. -/
structure SampleCall where
  countBefore : Int
  maxBatch : Int
  timeout : RDuration
  deriving DecidableEq, Repr

/-- How the per-request sampling loop ends: the while condition failed
because the request is satisfied (`done`) or because the transport context
is cancelled (`cancelledHit`); an error aborts the stream; `fuelOut` is the
artificial exhaustion of the step budget of the model. -/
inductive LoopExit where
  | done
  | cancelledHit
  | errStatus (s : GrpcStatus)
  | fuelOut
  deriving DecidableEq, Repr

/-- Result of the per-request sampling loop: the `SampleFlexibleBatch` calls
made, the final `count`, the loop-iteration and write counters afterwards,
and the exit kind. -/
structure RequestLoopResult where
  events : List SampleCall
  count : Int
  itAfter : Nat
  wAfter : Nat
  exit : LoopExit
  deriving DecidableEq, Repr

/-- External collaborators of `SampleStreamInternal`: `cancelled i` is
`context->IsCancelled()` at loop iteration `i`; `sampleFlexibleBatch i max t`
is the outcome of the `i`-th `Table::SampleFlexibleBatch` call (a status or
the sampled items); `writeOk i` tells whether the `i`-th `stream->Write`
succeeds. -/
structure SampleEnv where
  cancelled : Nat → Bool
  sampleFlexibleBatch : Nat → Int → RDuration → Except GrpcStatus (List SampledItem)
  writeOk : Nat → Bool

/-- Write the frames of one sample (lines 354-368): one `stream->Write` per
frame; a failed write aborts.  Returns the write counter afterwards and
whether all writes succeeded. -/
def writeEntries (wOk : Nat → Bool) : Nat → List Entry → Nat × Bool
  | w, [] => (w, true)
  | w, _ :: rest =>
    if wOk w then writeEntries wOk (w + 1) rest else (w + 1, false)

/-- Emit all samples of one batch (lines 322-373), each fanned out into its
frames by `emitSample`. -/
def writeSamples (wOk : Nat → Bool) : Nat → List SampledItem → Nat × Bool
  | w, [] => (w, true)
  | w, s :: rest =>
    match writeEntries wOk w (emitSample s.chunks) with
    | (w', true) => writeSamples wOk w' rest
    | (w', false) => (w', false)

/-- The sampling loop of `SampleStreamInternal` (lines 306-374):
`while (!context->IsCancelled() && count != request.num_samples())`, each
iteration asking `SampleFlexibleBatch` for
`min(flexible_batch_size == kAutoSelectValue ? default : flexible_batch_size,
num_samples - count)` items, accumulating `count += samples.size()` and
writing the sampled items out. -/
def requestLoop (env : SampleEnv) (numSamples fbs defFbs : Int)
    (timeout : RDuration) : Nat → Int → Nat → Nat → RequestLoopResult
  | 0, count, it, w => ⟨[], count, it, w, .fuelOut⟩
  | fuel + 1, count, it, w =>
    if env.cancelled it then ⟨[], count, it, w, .cancelledHit⟩
    else if count = numSamples then ⟨[], count, it, w, .done⟩
    else
      let maxBatch :=
        min (if fbs = kAutoSelectValue then defFbs else fbs)
          (numSamples - count)
      match env.sampleFlexibleBatch it maxBatch timeout with
      | .error s => ⟨[⟨count, maxBatch, timeout⟩], count, it + 1, w, .errStatus s⟩
      | .ok samples =>
        match writeSamples env.writeOk w samples with
        | (w', false) =>
          ⟨[⟨count, maxBatch, timeout⟩], count + samples.length, it + 1, w',
            .errStatus (internalStatus "Failed to write to Sample stream.")⟩
        | (w', true) =>
          let r := requestLoop env numSamples fbs defFbs timeout fuel
            (count + samples.length) (it + 1) w'
          ⟨⟨count, maxBatch, timeout⟩ :: r.events, r.count, r.itAfter,
            r.wAfter, r.exit⟩

/-- Processing of one request of the sample stream (lines 290-374): the
three validations in source order, then the sampling loop starting at
`count = 0`. -/
def processSampleRequest (tables : List Table) (env : SampleEnv)
    (timeout : RDuration) (fuel : Nat) (it w : Nat)
    (req : SampleStreamRequest) : RequestLoopResult :=
  if req.num_samples ≤ 0 then
    ⟨[], 0, it, w, .errStatus ⟨.invalidArgument, "`num_samples` must be > 0."⟩⟩
  else if req.flexible_batch_size ≤ 0 ∧ req.flexible_batch_size ≠ kAutoSelectValue then
    ⟨[], 0, it, w,
      .errStatus ⟨.invalidArgument,
        "`flexible_batch_size` must be > 0 or " ++ toString kAutoSelectValue ++
          " (for auto tuning)."⟩⟩
  else
    match TableByName tables req.table with
    | none => ⟨[], 0, it, w, .errStatus (tableNotFound req.table)⟩
    | some t =>
      requestLoop env req.num_samples req.flexible_batch_size
        t.defaultFlexibleBatchSize timeout fuel 0 it w

/-- How a whole sample stream ends: OK on wire EOF, an error status, or the
artificial fuel exhaustion of the model. -/
inductive StreamOutcome where
  | ok
  | errStatus (s : GrpcStatus)
  | fuelOut
  deriving DecidableEq, Repr

/-- The `do ... while (stream->Read(&request))` loop (lines 290-377) over
the successfully read requests: a cancelled or satisfied request loop
proceeds to the next read; an error aborts; EOF returns OK. -/
def sampleStreamGo (tables : List Table) (env : SampleEnv)
    (timeout : RDuration) (fuel : Nat) :
    List SampleStreamRequest → Nat → Nat → List SampleCall × StreamOutcome
  | [], _, _ => ([], .ok)
  | req :: rest, it, w =>
    let r := processSampleRequest tables env timeout fuel it w req
    match r.exit with
    | .errStatus s => (r.events, .errStatus s)
    | .fuelOut => (r.events, .fuelOut)
    | _ =>
      let tail := sampleStreamGo tables env timeout fuel rest r.itAfter r.wAfter
      (r.events ++ tail.1, tail.2)

/-- A whole `SampleStreamInternal` run over the requests read from the wire.
An empty wire fails the initial read (line 282); otherwise the rate-limiter
timeout is computed once, from the initial request, before the request
loop. -/
def sampleStream (tables : List Table) (env : SampleEnv) (fuel : Nat)
    (reqs : List SampleStreamRequest) : List SampleCall × StreamOutcome :=
  match reqs with
  | [] => ([], .errStatus (internalStatus "Could not read initial request"))
  | req :: _ =>
    sampleStreamGo tables env (computeTimeout req.rate_limiter_timeout) fuel
      reqs 0 0

/-- An `InitializeConnectionRequest` proto. -/
structure InitializeConnectionRequest where
  pid : Int
  table_name : String
  ownership_transferred : Bool
  deriving DecidableEq, Repr

/-- An `InitializeConnectionResponse` proto: the transmitted address. -/
structure InitializeConnectionResponse where
  address : Int
  deriving DecidableEq, Repr

/-- External collaborators of `InitializeConnection`: whether
`IsLocalhostOrInProcess(context->peer())` holds, the server's `getpid()`,
the successfully read requests, write success, and the heap address the
table-holder allocation would get. -/
structure InitEnv where
  peerIsLocalhostOrInProcess : Bool
  serverPid : Int
  reads : List InitializeConnectionRequest
  writeOk : Nat → Bool
  holderAddress : Int

/-- Observable outcome of `InitializeConnection`: the returned status, the
responses passed to `stream->Write` (attempted writes), and whether the
heap-allocated `shared_ptr<Table>` holder was allocated. -/
structure InitResult where
  status : GrpcStatus
  writes : List InitializeConnectionResponse
  allocatedHolder : Bool
  deriving DecidableEq, Repr

/-- `ReverbServiceImpl::InitializeConnection` (lines 423-474). -/
def initializeConnection (tables : List Table) (env : InitEnv) : InitResult :=
  if ¬ env.peerIsLocalhostOrInProcess then ⟨statusOK, [], false⟩
  else
    match env.reads with
    | [] => ⟨internalStatus "Failed to read from stream", [], false⟩
    | req :: more =>
      if req.pid ≠ env.serverPid then
        ⟨statusOK, [⟨0⟩], false⟩
      else
        match TableByName tables req.table_name with
        | none => ⟨tableNotFound req.table_name, [], false⟩
        | some _ =>
          if ¬ env.writeOk 0 then
            ⟨internalStatus "Failed to write to stream.",
              [⟨env.holderAddress⟩], true⟩
          else
            match more with
            | [] =>
              ⟨internalStatus "Failed to read from stream.",
                [⟨env.holderAddress⟩], true⟩
            | req2 :: _ =>
              if ¬ req2.ownership_transferred then
                ⟨internalStatus "Received unexpected request",
                  [⟨env.holderAddress⟩], true⟩
              else ⟨statusOK, [⟨env.holderAddress⟩], true⟩

/-- An insert environment with an always-open store, an always-succeeding
table and an always-succeeding wire, used to exercise the handlers on
concrete inputs. -/
def insertEnvOpen : InsertEnv := ⟨none, fun _ => none, fun _ => true⟩

/-- A request carrying one chunk and one item referencing it. -/
def demoInsertReq : InsertStreamRequest :=
  { chunks := [⟨7, 1⟩]
    item := some { item := ⟨100, "t", [7]⟩, keep_chunk_keys := [7],
                   send_confirmation := false } }

/-- A sample environment that is never cancelled, returns one sampled item
with no chunks per call, and always writes successfully. -/
def sampleEnvDemo : SampleEnv :=
  { cancelled := fun _ => false
    sampleFlexibleBatch := fun _ _ _ => .ok [⟨[]⟩]
    writeOk := fun _ => true }

/-- A registered table named "t". -/
def demoTable : Table := ⟨"t", 7⟩

/-- A request whose item references chunk key 999 that no request supplied. -/
def demoMissingReq : InsertStreamRequest :=
  { chunks := [], item := some { item := ⟨1, "t", [999]⟩, keep_chunk_keys := [],
                                 send_confirmation := false } }

/-- An `InitializeConnection` environment whose peer is not local. -/
def initEnvRemote : InitEnv := ⟨false, 1, [], fun _ => true, 99⟩

/-- A localhost `InitializeConnection` environment whose client pid (1)
differs from the server pid (2). -/
def initEnvForeignPid : InitEnv := ⟨true, 2, [⟨1, "t", false⟩], fun _ => true, 99⟩

/-- An initial sample request: two samples, batch size 5, 5 ms timeout. -/
def demoSampleReq : SampleStreamRequest := ⟨"t", 2, 5, some 5⟩

/-- A follow-up sample request carrying a different rate-limiter timeout,
which `SampleStreamInternal` never reads. -/
def demoSampleReq2 : SampleStreamRequest := ⟨"t", 1, 1, some 99⟩

/-! ## Lemmas about the sample framing loop -/

theorem getLastQAppendSingle {α : Type} (l : List α) (a : α) :
    (l ++ [a]).getLast? = some a := by
  induction l with
  | nil => rfl
  | cons b l ih => cases l with
    | nil => rfl
    | cons c l => simpa using ih

theorem dropLastAppendSingle {α : Type} (l : List α) (a : α) :
    (l ++ [a]).dropLast = l := by
  induction l with
  | nil => rfl
  | cons b l ih => cases l with
    | nil => rfl
    | cons c l => simpa using ih

theorem emitSampleGo_join :
    ∀ (total : Nat) (rest : List ChunkData) (cur : Entry) (idx : Nat),
      idx + rest.length = total → rest ≠ [] →
      ((emitSampleGo total cur idx rest).map Entry.data).flatten = cur.data ++ rest := by
  intro total rest
  induction rest with
  | nil => intro cur idx _ hne; cases hne rfl
  | cons c rest ih =>
    intro cur idx hlen _
    cases rest with
    | nil =>
      have hcond : ¬ (idx < total - 1) := by
        simp at hlen; omega
      simp [emitSampleGo, hcond, nextEntry]
    | cons d rest2 =>
      have hlt : idx < total - 1 := by
        simp at hlen; omega
      have hlen' : idx + 1 + (d :: rest2).length = total := by
        simp at hlen ⊢; omega
      by_cases hsz :
          entryByteSize (nextEntry cur idx total c) < kMaxSampleResponseSizeBytes
      · have hstep : emitSampleGo total cur idx (c :: d :: rest2) =
            emitSampleGo total (nextEntry cur idx total c) (idx + 1) (d :: rest2) := by
          simp [emitSampleGo, hlt, hsz]
        rw [hstep, ih _ _ hlen' (by simp)]
        simp [nextEntry]
      · have hstep : emitSampleGo total cur idx (c :: d :: rest2) =
            nextEntry cur idx total c ::
              emitSampleGo total emptyEntry (idx + 1) (d :: rest2) := by
          simp [emitSampleGo, hsz]
        rw [hstep]
        simp only [List.map_cons, List.flatten_cons]
        rw [ih emptyEntry (idx + 1) hlen' (by simp)]
        simp [nextEntry, emptyEntry]

theorem emitSampleGo_eos :
    ∀ (total : Nat) (rest : List ChunkData) (cur : Entry) (idx : Nat),
      idx + rest.length = total → rest ≠ [] →
      ∃ es lastE, emitSampleGo total cur idx rest = es ++ [lastE] ∧
        (∀ e ∈ es, e.end_of_sequence = false) ∧
        lastE.end_of_sequence = true ∧
        lastE.data.getLast? = rest.getLast? := by
  intro total rest
  induction rest with
  | nil => intro cur idx _ hne; cases hne rfl
  | cons c rest ih =>
    intro cur idx hlen _
    cases rest with
    | nil =>
      have heq : idx + 1 = total := by simpa using hlen
      have hcond : ¬ (idx < total - 1) := by omega
      refine ⟨[], nextEntry cur idx total c, ?_, by simp, ?_, ?_⟩
      · simp [emitSampleGo, hcond]
      · simp [nextEntry, heq]
      · simp [nextEntry, getLastQAppendSingle]
    | cons d rest2 =>
      have hlt : idx < total - 1 := by
        simp at hlen; omega
      have heos : (nextEntry cur idx total c).end_of_sequence = false := by
        simp [nextEntry]; omega
      have hlen' : idx + 1 + (d :: rest2).length = total := by
        simp at hlen ⊢; omega
      by_cases hsz :
          entryByteSize (nextEntry cur idx total c) < kMaxSampleResponseSizeBytes
      · have hstep : emitSampleGo total cur idx (c :: d :: rest2) =
            emitSampleGo total (nextEntry cur idx total c) (idx + 1) (d :: rest2) := by
          simp [emitSampleGo, hlt, hsz]
        obtain ⟨es, lastE, h1, h2, h3, h4⟩ := ih (nextEntry cur idx total c) (idx + 1) hlen' (by simp)
        exact ⟨es, lastE, by rw [hstep, h1], h2, h3, by simpa using h4⟩
      · have hstep : emitSampleGo total cur idx (c :: d :: rest2) =
            nextEntry cur idx total c ::
              emitSampleGo total emptyEntry (idx + 1) (d :: rest2) := by
          simp [emitSampleGo, hsz]
        obtain ⟨es, lastE, h1, h2, h3, h4⟩ := ih emptyEntry (idx + 1) hlen' (by simp)
        refine ⟨nextEntry cur idx total c :: es, lastE, ?_, ?_, h3, by simpa using h4⟩
        · rw [hstep, h1]; rfl
        · intro e he
          rcases List.mem_cons.mp he with rfl | he
          · exact heos
          · exact h2 e he

theorem emitSampleGo_size :
    ∀ (total : Nat) (rest : List ChunkData) (cur : Entry) (idx : Nat),
      entryByteSize cur < kMaxSampleResponseSizeBytes →
      ∀ e ∈ emitSampleGo total cur idx rest,
        ((e.data.dropLast).map ChunkData.size).sum < kMaxSampleResponseSizeBytes := by
  intro total rest
  induction rest with
  | nil => intro cur idx _ e he; simp [emitSampleGo] at he
  | cons c rest ih =>
    intro cur idx hcur e he
    by_cases hc : idx < total - 1 ∧
        entryByteSize (nextEntry cur idx total c) < kMaxSampleResponseSizeBytes
    · have hstep : emitSampleGo total cur idx (c :: rest) =
          emitSampleGo total (nextEntry cur idx total c) (idx + 1) rest := by
        simp [emitSampleGo, hc.1, hc.2]
      rw [hstep] at he
      exact ih _ _ hc.2 e he
    · have hstep : emitSampleGo total cur idx (c :: rest) =
          nextEntry cur idx total c ::
            emitSampleGo total emptyEntry (idx + 1) rest := by
        by_cases h1 : idx < total - 1
        · have h2 : ¬ entryByteSize (nextEntry cur idx total c) <
              kMaxSampleResponseSizeBytes := fun h => hc ⟨h1, h⟩
          simp [emitSampleGo, h2]
        · simp [emitSampleGo, h1]
      rw [hstep] at he
      rcases List.mem_cons.mp he with rfl | he
      · simpa [nextEntry, dropLastAppendSingle, entryByteSize] using hcur
      · exact ih emptyEntry (idx + 1) (by decide) e he

/-- C2: for every `SampledItem` processed by `SampleStream`, the chunks
emitted across all response frames are exactly the item's chunk list, in
trajectory order, and the `end_of_sequence` flag is true on the frame
carrying the last chunk and false on every frame written before it. -/
theorem sample_chunk_fanout_exact (chunks : List ChunkData) :
    ((emitSample chunks).map Entry.data).flatten = chunks ∧
    (chunks ≠ [] →
      ∃ es lastE, emitSample chunks = es ++ [lastE] ∧
        (∀ e ∈ es, e.end_of_sequence = false) ∧
        lastE.end_of_sequence = true ∧
        lastE.data.getLast? = chunks.getLast?) := by
  constructor
  · cases chunks with
    | nil => rfl
    | cons c rest =>
      simpa [emptyEntry] using
        emitSampleGo_join (c :: rest).length (c :: rest) emptyEntry 0 (by simp) (by simp)
  · intro h
    exact emitSampleGo_eos chunks.length chunks emptyEntry 0 (by simp) h

theorem sample_chunk_fanout_exact_witness :
    ((emitSample [⟨7, 3⟩, ⟨8, 5⟩]).map Entry.data).flatten = [⟨7, 3⟩, ⟨8, 5⟩] ∧
    (∃ es lastE, emitSample [⟨7, 3⟩, ⟨8, 5⟩] = es ++ [lastE] ∧
      (∀ e ∈ es, e.end_of_sequence = false) ∧
      lastE.end_of_sequence = true ∧
      lastE.data.getLast? = ([⟨7, 3⟩, ⟨8, 5⟩] : List ChunkData).getLast?) :=
  ⟨(sample_chunk_fanout_exact [⟨7, 3⟩, ⟨8, 5⟩]).1,
    (sample_chunk_fanout_exact [⟨7, 3⟩, ⟨8, 5⟩]).2 (by decide)⟩

/-- C1 as stated is false on the code: the handler appends the chunk first
and only then compares the entry size against the bound, so two 39 MiB
chunks are packed into a single written frame of 78 MiB, exceeding
`kMaxSampleResponseSizeBytes`. -/
theorem sample_frame_bound_counterexample :
    ∃ e ∈ emitSample [⟨1, 39 * 1024 * 1024⟩, ⟨2, 39 * 1024 * 1024⟩],
      kMaxSampleResponseSizeBytes < entryByteSize e := by decide

/-- C1 (amended): a chunk is appended before the size check, and the frame
is flushed as soon as its size reaches the bound, so every written frame is
below 40 MiB once its final chunk is excluded (a frame exceeds the bound by
at most the size of its last chunk). -/
theorem sample_frame_bound_amended (chunks : List ChunkData) :
    ∀ e ∈ emitSample chunks,
      ((e.data.dropLast).map ChunkData.size).sum < kMaxSampleResponseSizeBytes :=
  emitSampleGo_size chunks.length chunks emptyEntry 0 (by decide)

theorem sample_frame_bound_amended_witness :
    (((Entry.mk true true [⟨1, 39 * 1024 * 1024⟩, ⟨2, 39 * 1024 * 1024⟩]).data.dropLast).map
      ChunkData.size).sum < kMaxSampleResponseSizeBytes :=
  sample_frame_bound_amended [⟨1, 39 * 1024 * 1024⟩, ⟨2, 39 * 1024 * 1024⟩]
    (Entry.mk true true [⟨1, 39 * 1024 * 1024⟩, ⟨2, 39 * 1024 * 1024⟩]) (by decide)

/-! ## Lemmas about the insert handler -/

theorem retainOnly_map_fst (m : List (Nat × ChunkData)) (keep : List Nat) :
    (retainOnly m keep).map Prod.fst =
      (m.map Prod.fst).filter (fun k => decide (k ∈ keep)) := by
  induction m with
  | nil => rfl
  | cons p rest ih =>
    simp only [retainOnly, List.filter_cons, List.map_cons] at ih ⊢
    by_cases h : p.1 ∈ keep
    · simp [h, ih]
    · simp [h, ih]

/-- C3: after an item is processed, the retention loop erases exactly the
pending chunks whose key is not in `keep_chunk_keys`; when every keep key is
currently pending, the surviving key set equals `keep_chunk_keys` and the
fatal `REVERB_CHECK_EQ(chunks.size(), keep_keys.size())` holds (the
assertion branch is unreachable). -/
theorem insert_retention_exact (pending : List (Nat × ChunkData)) (keep : List Nat)
    (hnd : (pending.map Prod.fst).Nodup)
    (hsub : ∀ k ∈ keep, k ∈ pending.map Prod.fst) :
    (∀ p ∈ retainOnly pending keep, p.1 ∈ keep ∧ p ∈ pending) ∧
    ((retainOnly pending keep).map Prod.fst).toFinset = keep.toFinset ∧
    (retainOnly pending keep).length = keep.dedup.length := by
  have hmap := retainOnly_map_fst pending keep
  have hfin : ((pending.map Prod.fst).filter (fun k => decide (k ∈ keep))).toFinset =
      keep.toFinset := by
    ext k
    simp only [List.mem_toFinset, List.mem_filter, decide_eq_true_eq]
    exact ⟨fun h => h.2, fun hk => ⟨hsub k hk, hk⟩⟩
  have hnodupf : ((pending.map Prod.fst).filter (fun k => decide (k ∈ keep))).Nodup :=
    hnd.filter _
  refine ⟨?_, ?_, ?_⟩
  · intro p hp
    simp only [retainOnly, List.mem_filter, decide_eq_true_eq] at hp
    exact ⟨hp.2, hp.1⟩
  · rw [hmap]; exact hfin
  · have h1 : (retainOnly pending keep).length =
        ((retainOnly pending keep).map Prod.fst).length := (List.length_map _ _).symm
    rw [h1, hmap, ← List.toFinset_card_of_nodup hnodupf, hfin, List.card_toFinset]

theorem insert_retention_exact_witness :
    ((retainOnly [(1, ChunkData.mk 1 0), (2, ChunkData.mk 2 0)] [1]).map Prod.fst).toFinset =
      ([1] : List Nat).toFinset ∧
    (retainOnly [(1, ChunkData.mk 1 0), (2, ChunkData.mk 2 0)] [1]).length =
      ([1] : List Nat).dedup.length :=
  ⟨(insert_retention_exact [(1, ⟨1, 0⟩), (2, ⟨2, 0⟩)] [1] (by decide) (by decide)).2.1,
   (insert_retention_exact [(1, ⟨1, 0⟩), (2, ⟨2, 0⟩)] [1] (by decide) (by decide)).2.2⟩

theorem insertChunksLoop_open :
    ∀ (cs : List ChunkData) (st : InsertState),
      (insertChunksLoop none st cs).2 = none ∧
      (insertChunksLoop none st cs).1.calls = st.calls + cs.length := by
  intro cs
  induction cs with
  | nil => intro st; simp [insertChunksLoop]
  | cons c rest ih =>
    intro st
    have h := ih { pending := mapInsert st.pending c.chunk_key c,
                   calls := st.calls + 1, writes := st.writes }
    simp only [insertChunksLoop, storeInsertOk, if_true]
    refine ⟨h.1, ?_⟩
    rw [h.2]; simp; omega

theorem firstMissingKey_resolve :
    ∀ (ks : List Nat) (m : List (Nat × ChunkData)) (K : Nat),
      firstMissingKey m ks = some K →
      resolveChunks m ks = .error (.status (internalStatus
        ("Could not find sequence chunk " ++ toString K ++ "."))) := by
  intro ks
  induction ks with
  | nil => intro m K h; simp [firstMissingKey] at h
  | cons k rest ih =>
    intro m K h
    rcases hl : lookupChunk m k with _ | c
    · simp only [firstMissingKey, hl] at h
      cases h
      simp [resolveChunks, hl]
    · simp only [firstMissingKey, hl] at h
      have := ih m K h
      simp [resolveChunks, hl, this]

/-- C4: an `InsertStream` request whose item references a chunk key missing
from the pending map fails with
`Internal("Could not find sequence chunk K.")` for the first missing key,
and no `Table::InsertOrAssign` call is made for the request. -/
theorem insert_missing_chunk (tables : List String) (env : InsertEnv)
    (st : InsertState) (req : InsertStreamRequest) (ins : InsertItem) (K : Nat)
    (hopen : env.closeAfter = none)
    (hitem : req.item = some ins)
    (hmiss : firstMissingKey (insertChunksLoop none st req.chunks).1.pending
      ins.item.trajectoryChunkKeys = some K) :
    (processRequest tables env st req).err =
      some (.status (internalStatus
        ("Could not find sequence chunk " ++ toString K ++ "."))) ∧
    (processRequest tables env st req).events = [] := by
  rcases h1 : insertChunksLoop none st req.chunks with ⟨st1, e?⟩
  have h2 : e? = none := by
    have := (insertChunksLoop_open req.chunks st).1
    rw [h1] at this; exact this
  subst h2
  rw [h1] at hmiss
  have h3 := firstMissingKey_resolve ins.item.trajectoryChunkKeys st1.pending K hmiss
  simp [processRequest, hopen, h1, hitem, processItemPhase, h3]

theorem insert_missing_chunk_witness :
    (processRequest ["t"] insertEnvOpen ⟨[], 0, 0⟩ demoMissingReq).err =
      some (.status (internalStatus "Could not find sequence chunk 999.")) ∧
    (processRequest ["t"] insertEnvOpen ⟨[], 0, 0⟩ demoMissingReq).events = [] := by
  have h := insert_missing_chunk ["t"] insertEnvOpen ⟨[], 0, 0⟩ demoMissingReq
    { item := ⟨1, "t", [999]⟩, keep_chunk_keys := [], send_confirmation := false } 999
    rfl rfl (by decide)
  simpa using h

theorem insertChunksLoop_closed_eq :
    ∀ (cs : List ChunkData) (n : Nat) (st : InsertState),
      st.calls + cs.length ≤ n →
      insertChunksLoop (some n) st cs = insertChunksLoop none st cs := by
  intro cs
  induction cs with
  | nil => intro n st _; rfl
  | cons c rest ih =>
    intro n st h
    have h' : st.calls + 1 + rest.length ≤ n := by simp at h; omega
    have hd : decide (st.calls < n) = true := by
      simp only [decide_eq_true_eq]; omega
    simp only [insertChunksLoop, storeInsertOk, hd, if_true]
    exact ih n { pending := mapInsert st.pending c.chunk_key c,
                 calls := st.calls + 1, writes := st.writes } h'

theorem insertChunksLoop_closed_fail :
    ∀ (cs : List ChunkData) (n : Nat) (st : InsertState),
      st.calls ≤ n → n < st.calls + cs.length →
      (insertChunksLoop (some n) st cs).2 =
        some (.status ⟨.cancelled, "Service has been closed"⟩) := by
  intro cs
  induction cs with
  | nil => intro n st h1 h2; simp at h2; omega
  | cons c rest ih =>
    intro n st h1 h2
    by_cases hlt : st.calls < n
    · have hd : decide (st.calls < n) = true := by
        simp only [decide_eq_true_eq]; omega
      have h1' : st.calls + 1 ≤ n := by omega
      have h2' : n < st.calls + 1 + rest.length := by simp at h2; omega
      simp only [insertChunksLoop, storeInsertOk, hd, if_true]
      exact ih n { pending := mapInsert st.pending c.chunk_key c,
                   calls := st.calls + 1, writes := st.writes } h1' h2'
    · have hok : storeInsertOk (some n) st.calls = false := by
        simp [storeInsertOk]; omega
      simp [insertChunksLoop, hok]

theorem processItemPhase_calls (tables : List String)
    (ioa : PrioritizedItem → Option GrpcStatus) (wOk : Nat → Bool)
    (st : InsertState) (ins : InsertItem) :
    (processItemPhase tables ioa wOk st ins).state.calls = st.calls := by
  unfold processItemPhase finishRetention
  dsimp only
  repeat' split
  all_goals rfl

theorem processRequest_open_calls (tables : List String)
    (ioa : PrioritizedItem → Option GrpcStatus) (wOk : Nat → Bool)
    (st : InsertState) (r : InsertStreamRequest) :
    (processRequest tables ⟨none, ioa, wOk⟩ st r).state.calls =
      st.calls + r.chunks.length := by
  have hopen := insertChunksLoop_open r.chunks st
  rcases h1 : insertChunksLoop none st r.chunks with ⟨st1, e?⟩
  rw [h1] at hopen
  rcases hopen with ⟨he, hc⟩
  subst he
  simp only [processRequest, h1]
  rcases r.item with _ | ins
  · exact hc
  · simp only
    rw [processItemPhase_calls]
    exact hc

theorem processRequest_closed_eq (tables : List String)
    (ioa : PrioritizedItem → Option GrpcStatus) (wOk : Nat → Bool)
    (n : Nat) (st : InsertState) (r : InsertStreamRequest)
    (h : st.calls + r.chunks.length ≤ n) :
    processRequest tables ⟨some n, ioa, wOk⟩ st r =
      processRequest tables ⟨none, ioa, wOk⟩ st r := by
  simp only [processRequest]
  rw [insertChunksLoop_closed_eq r.chunks n st h]

theorem isPrefixAppendBoth {α : Type} (p : List α) {a b : List α}
    (h : List.IsPrefix a b) : List.IsPrefix (p ++ a) (p ++ b) := by
  obtain ⟨t, rfl⟩ := h
  exact ⟨t, by simp⟩

theorem totalChunks_cons (r : InsertStreamRequest) (rest : List InsertStreamRequest) :
    totalChunks (r :: rest) = r.chunks.length + totalChunks rest := by
  simp [totalChunks]

theorem insert_store_closed_aux (tables : List String)
    (ioa : PrioritizedItem → Option GrpcStatus) (wOk : Nat → Bool) (n : Nat) :
    ∀ (reqs : List InsertStreamRequest) (st : InsertState),
      st.calls ≤ n →
      (insertStreamGo tables ⟨none, ioa, wOk⟩ st reqs).err = none →
      n < st.calls + totalChunks reqs →
      (insertStreamGo tables ⟨some n, ioa, wOk⟩ st reqs).err =
        some (.status ⟨.cancelled, "Service has been closed"⟩) ∧
      List.IsPrefix (insertStreamGo tables ⟨some n, ioa, wOk⟩ st reqs).events
        (insertStreamGo tables ⟨none, ioa, wOk⟩ st reqs).events := by
  intro reqs
  induction reqs with
  | nil =>
    intro st h1 _ h3
    simp [totalChunks] at h3
    omega
  | cons r rest ih =>
    intro st hcalls hok hn
    rw [totalChunks_cons] at hn
    by_cases hle : st.calls + r.chunks.length ≤ n
    · have heq := processRequest_closed_eq tables ioa wOk n st r hle
      have hpc := processRequest_open_calls tables ioa wOk st r
      rcases hres : processRequest tables ⟨none, ioa, wOk⟩ st r with ⟨st1, evs, confs, err⟩
      rw [hres] at hpc
      simp at hpc
      cases err with
      | some e =>
        exfalso
        rw [show (insertStreamGo tables ⟨none, ioa, wOk⟩ st (r :: rest)).err = some e from by
          simp [insertStreamGo, hres]] at hok
        exact Option.noConfusion hok
      | none =>
        have hok' : (insertStreamGo tables ⟨none, ioa, wOk⟩ st1 rest).err = none := by
          rw [show (insertStreamGo tables ⟨none, ioa, wOk⟩ st (r :: rest)).err =
              (insertStreamGo tables ⟨none, ioa, wOk⟩ st1 rest).err from by
            simp [insertStreamGo, hres]] at hok
          exact hok
        have hih := ih st1 (by omega) hok' (by omega)
        constructor
        · simp [insertStreamGo, heq, hres, hih.1]
        · have hgc : (insertStreamGo tables ⟨some n, ioa, wOk⟩ st (r :: rest)).events =
              evs ++ (insertStreamGo tables ⟨some n, ioa, wOk⟩ st1 rest).events := by
            simp [insertStreamGo, heq, hres]
          have hgo : (insertStreamGo tables ⟨none, ioa, wOk⟩ st (r :: rest)).events =
              evs ++ (insertStreamGo tables ⟨none, ioa, wOk⟩ st1 rest).events := by
            simp [insertStreamGo, hres]
          rw [hgc, hgo]
          exact isPrefixAppendBoth evs hih.2
    · have hfail := insertChunksLoop_closed_fail r.chunks n st hcalls (by omega)
      rcases h1 : insertChunksLoop (some n) st r.chunks with ⟨st1, e?⟩
      rw [h1] at hfail
      simp only at hfail
      subst hfail
      constructor
      · simp [insertStreamGo, processRequest, h1]
      · rw [show (insertStreamGo tables ⟨some n, ioa, wOk⟩ st (r :: rest)).events = [] from by
          simp [insertStreamGo, processRequest, h1]]
        exact List.nil_prefix

/-- C5: when the `ChunkStore` is closed partway through an insert stream
whose run would otherwise succeed, the stream fails with
`Cancelled("Service has been closed")`, and the `InsertOrAssign` calls it
made are a prefix of the unclosed run's calls: items inserted by earlier
requests are unaffected, with no rollback. -/
theorem insert_store_closed (tables : List String)
    (ioa : PrioritizedItem → Option GrpcStatus) (wOk : Nat → Bool)
    (reqs : List InsertStreamRequest) (n : Nat)
    (hok : (insertStreamRun tables ⟨none, ioa, wOk⟩ reqs).err = none)
    (hn : n < totalChunks reqs) :
    (insertStreamRun tables ⟨some n, ioa, wOk⟩ reqs).err =
      some (.status ⟨.cancelled, "Service has been closed"⟩) ∧
    List.IsPrefix (insertStreamRun tables ⟨some n, ioa, wOk⟩ reqs).events
      (insertStreamRun tables ⟨none, ioa, wOk⟩ reqs).events :=
  insert_store_closed_aux tables ioa wOk n reqs ⟨[], 0, 0⟩ (Nat.zero_le n) hok
    (by simpa using hn)

theorem insert_store_closed_witness :
    (insertStreamRun ["t"] ⟨some 0, insertEnvOpen.insertOrAssignStatus,
        insertEnvOpen.writeOk⟩ [demoInsertReq]).err =
      some (.status ⟨.cancelled, "Service has been closed"⟩) ∧
    List.IsPrefix (insertStreamRun ["t"] ⟨some 0, insertEnvOpen.insertOrAssignStatus,
        insertEnvOpen.writeOk⟩ [demoInsertReq]).events
      (insertStreamRun ["t"] ⟨none, insertEnvOpen.insertOrAssignStatus,
        insertEnvOpen.writeOk⟩ [demoInsertReq]).events :=
  insert_store_closed ["t"] insertEnvOpen.insertOrAssignStatus insertEnvOpen.writeOk
    [demoInsertReq] 0 (by decide) (by decide)

/-! ## Lemmas about the sample handler -/

/-- C6: the sample-stream request validations fire in source order —
`num_samples <= 0` gives InvalidArgument, then a non-positive
`flexible_batch_size` other than the AutoSelect sentinel gives
InvalidArgument, then an unknown table gives NotFound with message
"Priority table <name> was not found" — and a failed validation issues no
`SampleFlexibleBatch` call. -/
theorem sample_request_validation (tables : List Table) (env : SampleEnv)
    (timeout : RDuration) (fuel it w : Nat) (req : SampleStreamRequest) :
    (req.num_samples ≤ 0 →
      processSampleRequest tables env timeout fuel it w req =
        ⟨[], 0, it, w, .errStatus ⟨.invalidArgument, "`num_samples` must be > 0."⟩⟩) ∧
    (¬ req.num_samples ≤ 0 → req.flexible_batch_size ≤ 0 →
      req.flexible_batch_size ≠ kAutoSelectValue →
      processSampleRequest tables env timeout fuel it w req =
        ⟨[], 0, it, w, .errStatus ⟨.invalidArgument,
          "`flexible_batch_size` must be > 0 or " ++ toString kAutoSelectValue ++
            " (for auto tuning)."⟩⟩) ∧
    (¬ req.num_samples ≤ 0 →
      ¬ (req.flexible_batch_size ≤ 0 ∧ req.flexible_batch_size ≠ kAutoSelectValue) →
      TableByName tables req.table = none →
      processSampleRequest tables env timeout fuel it w req =
        ⟨[], 0, it, w, .errStatus (tableNotFound req.table)⟩) := by
  refine ⟨?_, ?_, ?_⟩
  · intro h
    simp [processSampleRequest, h]
  · intro h1 h2 h3
    simp [processSampleRequest, h1, h2, h3]
  · intro h1 h2 h3
    simp [processSampleRequest, h1, h2, h3]

theorem sample_request_validation_witness :
    processSampleRequest [demoTable] sampleEnvDemo .infinite 1 0 0 ⟨"t", 0, 1, none⟩ =
      ⟨[], 0, 0, 0, .errStatus ⟨.invalidArgument, "`num_samples` must be > 0."⟩⟩ ∧
    processSampleRequest [demoTable] sampleEnvDemo .infinite 1 0 0 ⟨"t", 1, 0, none⟩ =
      ⟨[], 0, 0, 0, .errStatus ⟨.invalidArgument,
        "`flexible_batch_size` must be > 0 or " ++ toString kAutoSelectValue ++
          " (for auto tuning)."⟩⟩ ∧
    processSampleRequest [demoTable] sampleEnvDemo .infinite 1 0 0 ⟨"ghost", 1, 1, none⟩ =
      ⟨[], 0, 0, 0, .errStatus (tableNotFound "ghost")⟩ :=
  ⟨(sample_request_validation [demoTable] sampleEnvDemo .infinite 1 0 0
      ⟨"t", 0, 1, none⟩).1 (by decide),
   (sample_request_validation [demoTable] sampleEnvDemo .infinite 1 0 0
      ⟨"t", 1, 0, none⟩).2.1 (by decide) (by decide) (by decide),
   (sample_request_validation [demoTable] sampleEnvDemo .infinite 1 0 0
      ⟨"ghost", 1, 1, none⟩).2.2 (by decide) (by decide) (by decide)⟩

/-- C7: every `SampleFlexibleBatch` call of the sampling loop asks for
exactly `min(flexible_batch_size == AutoSelect ? default : flexible_batch_size,
num_samples - count)` items, `count` being the samples already delivered for
the request, and the loop runs until `count` equals `num_samples` (`done`)
or the transport context is cancelled (`cancelledHit`). -/
theorem sample_batch_formula (env : SampleEnv) (numSamples fbs defFbs : Int)
    (timeout : RDuration) :
    ∀ (fuel : Nat) (count : Int) (it w : Nat),
      (∀ e ∈ (requestLoop env numSamples fbs defFbs timeout fuel count it w).events,
        e.maxBatch = min (if fbs = kAutoSelectValue then defFbs else fbs)
          (numSamples - e.countBefore)) ∧
      ((requestLoop env numSamples fbs defFbs timeout fuel count it w).exit = .done →
        (requestLoop env numSamples fbs defFbs timeout fuel count it w).count = numSamples) ∧
      ((requestLoop env numSamples fbs defFbs timeout fuel count it w).exit = .cancelledHit →
        env.cancelled (requestLoop env numSamples fbs defFbs timeout fuel count it w).itAfter
          = true) := by
  intro fuel
  induction fuel with
  | zero =>
    intro count it w
    refine ⟨?_, ?_, ?_⟩ <;> simp [requestLoop]
  | succ fuel ih =>
    intro count it w
    by_cases hcanc : env.cancelled it
    · have hstep : requestLoop env numSamples fbs defFbs timeout (fuel + 1) count it w =
          ⟨[], count, it, w, .cancelledHit⟩ := by
        simp [requestLoop, hcanc]
      rw [hstep]
      exact ⟨by simp, by simp, fun _ => hcanc⟩
    · by_cases hcnt : count = numSamples
      · have hstep : requestLoop env numSamples fbs defFbs timeout (fuel + 1) count it w =
            ⟨[], count, it, w, .done⟩ := by
          simp [requestLoop, hcanc, hcnt]
        rw [hstep]
        exact ⟨by simp, fun _ => hcnt, by simp⟩
      · rcases hsf : env.sampleFlexibleBatch it
            (min (if fbs = kAutoSelectValue then defFbs else fbs) (numSamples - count))
            timeout with s | samples
        · have hstep : requestLoop env numSamples fbs defFbs timeout (fuel + 1) count it w =
              ⟨[⟨count, min (if fbs = kAutoSelectValue then defFbs else fbs)
                  (numSamples - count), timeout⟩], count, it + 1, w, .errStatus s⟩ := by
            simp [requestLoop, hcanc, hcnt, hsf]
          rw [hstep]
          refine ⟨?_, by simp, by simp⟩
          intro e he
          simp at he
          subst he
          rfl
        · rcases hws : writeSamples env.writeOk w samples with ⟨w', ok⟩
          cases ok with
          | false =>
            have hstep : requestLoop env numSamples fbs defFbs timeout (fuel + 1) count it w =
                ⟨[⟨count, min (if fbs = kAutoSelectValue then defFbs else fbs)
                    (numSamples - count), timeout⟩], count + samples.length, it + 1, w',
                  .errStatus (internalStatus "Failed to write to Sample stream.")⟩ := by
              simp [requestLoop, hcanc, hcnt, hsf, hws]
            rw [hstep]
            refine ⟨?_, by simp, by simp⟩
            intro e he
            simp at he
            subst he
            rfl
          | true =>
            have hstep : requestLoop env numSamples fbs defFbs timeout (fuel + 1) count it w =
                ⟨⟨count, min (if fbs = kAutoSelectValue then defFbs else fbs)
                    (numSamples - count), timeout⟩ ::
                  (requestLoop env numSamples fbs defFbs timeout fuel
                    (count + samples.length) (it + 1) w').events,
                  (requestLoop env numSamples fbs defFbs timeout fuel
                    (count + samples.length) (it + 1) w').count,
                  (requestLoop env numSamples fbs defFbs timeout fuel
                    (count + samples.length) (it + 1) w').itAfter,
                  (requestLoop env numSamples fbs defFbs timeout fuel
                    (count + samples.length) (it + 1) w').wAfter,
                  (requestLoop env numSamples fbs defFbs timeout fuel
                    (count + samples.length) (it + 1) w').exit⟩ := by
              simp [requestLoop, hcanc, hcnt, hsf, hws]
            rw [hstep]
            obtain ⟨ih1, ih2, ih3⟩ := ih (count + samples.length) (it + 1) w'
            refine ⟨?_, fun h => ih2 h, fun h => ih3 h⟩
            intro e he
            rcases List.mem_cons.mp he with rfl | he
            · rfl
            · exact ih1 e he

theorem sample_batch_formula_witness :
    (SampleCall.mk 0 2 .infinite).maxBatch =
      min (if (5 : Int) = kAutoSelectValue then 7 else 5)
        (2 - (SampleCall.mk 0 2 .infinite).countBefore) ∧
    (requestLoop sampleEnvDemo 2 5 7 .infinite 3 0 0 0).count = 2 :=
  ⟨(sample_batch_formula sampleEnvDemo 2 5 7 .infinite 3 0 0 0).1
      (SampleCall.mk 0 2 .infinite) (by decide),
   (sample_batch_formula sampleEnvDemo 2 5 7 .infinite 3 0 0 0).2.1 (by decide)⟩

/-- C8: the rate-limiter timeout is the request's `rate_limiter_timeout` in
milliseconds when present and non-negative, and infinite when absent or
negative. -/
theorem sample_timeout_rule (rlt : Option Int) :
    (∀ ms : Int, rlt = some ms → 0 ≤ ms → computeTimeout rlt = .finite ms) ∧
    (rlt = none → computeTimeout rlt = .infinite) ∧
    (∀ ms : Int, rlt = some ms → ms < 0 → computeTimeout rlt = .infinite) := by
  refine ⟨?_, ?_, ?_⟩
  · intro ms h hms
    subst h
    simp only [computeTimeout]
    rw [if_neg (by omega)]
  · intro h
    subst h
    decide
  · intro ms h hms
    subst h
    simp only [computeTimeout]
    rw [if_pos (by omega)]

theorem sample_timeout_rule_witness :
    computeTimeout (some 5) = .finite 5 ∧
    computeTimeout none = .infinite ∧
    computeTimeout (some (-3)) = .infinite :=
  ⟨(sample_timeout_rule (some 5)).1 5 rfl (by norm_num),
   (sample_timeout_rule none).2.1 rfl,
   (sample_timeout_rule (some (-3))).2.2 (-3) rfl (by norm_num)⟩

/-- C9: `InitializeConnection` returns OK without writing anything when the
peer is not localhost or in-process, and writes a response with
`address = 0`, returns OK and allocates no table holder when the client pid
differs from the server's. -/
theorem init_connection_fast_path (tables : List Table) (env : InitEnv) :
    (env.peerIsLocalhostOrInProcess = false →
      initializeConnection tables env = ⟨statusOK, [], false⟩) ∧
    (∀ req more, env.peerIsLocalhostOrInProcess = true →
      env.reads = req :: more → req.pid ≠ env.serverPid →
      initializeConnection tables env = ⟨statusOK, [⟨0⟩], false⟩) := by
  constructor
  · intro h
    simp [initializeConnection, h]
  · intro req more hp hr hpid
    simp [initializeConnection, hp, hr, hpid]

theorem init_connection_fast_path_witness :
    initializeConnection [demoTable] initEnvRemote = ⟨statusOK, [], false⟩ ∧
    initializeConnection [demoTable] initEnvForeignPid = ⟨statusOK, [⟨0⟩], false⟩ :=
  ⟨(init_connection_fast_path [demoTable] initEnvRemote).1 rfl,
   (init_connection_fast_path [demoTable] initEnvForeignPid).2 ⟨1, "t", false⟩ []
      rfl rfl (by decide)⟩

theorem requestLoop_timeout (env : SampleEnv) (ns fbs dfbs : Int) (t : RDuration) :
    ∀ (fuel : Nat) (count : Int) (it w : Nat),
      ∀ e ∈ (requestLoop env ns fbs dfbs t fuel count it w).events, e.timeout = t := by
  intro fuel
  induction fuel with
  | zero => intro count it w e he; simp [requestLoop] at he
  | succ fuel ih =>
    intro count it w e he
    by_cases hcanc : env.cancelled it
    · simp [requestLoop, hcanc] at he
    · by_cases hcnt : count = ns
      · simp [requestLoop, hcanc, hcnt] at he
      · rcases hsf : env.sampleFlexibleBatch it
            (min (if fbs = kAutoSelectValue then dfbs else fbs) (ns - count)) t with s | samples
        · simp [requestLoop, hcanc, hcnt, hsf] at he
          subst he; rfl
        · rcases hws : writeSamples env.writeOk w samples with ⟨w', ok⟩
          cases ok with
          | false =>
            simp [requestLoop, hcanc, hcnt, hsf, hws] at he
            subst he; rfl
          | true =>
            simp [requestLoop, hcanc, hcnt, hsf, hws] at he
            rcases he with rfl | he
            · rfl
            · exact ih _ _ _ e he

theorem processSampleRequest_timeout (tables : List Table) (env : SampleEnv)
    (t : RDuration) (fuel it w : Nat) (req : SampleStreamRequest) :
    ∀ e ∈ (processSampleRequest tables env t fuel it w req).events, e.timeout = t := by
  intro e he
  unfold processSampleRequest at he
  split at he
  · simp at he
  · split at he
    · simp at he
    · split at he
      · simp at he
      · exact requestLoop_timeout env _ _ _ t fuel 0 it w e he

theorem sampleStreamGo_timeout (tables : List Table) (env : SampleEnv)
    (t : RDuration) (fuel : Nat) :
    ∀ (reqs : List SampleStreamRequest) (it w : Nat),
      ∀ e ∈ (sampleStreamGo tables env t fuel reqs it w).1, e.timeout = t := by
  intro reqs
  induction reqs with
  | nil => intro it w e he; simp [sampleStreamGo] at he
  | cons req rest ih =>
    intro it w e he
    have hev : ∀ e ∈ (processSampleRequest tables env t fuel it w req).events,
        e.timeout = t := processSampleRequest_timeout tables env t fuel it w req
    rcases hr : processSampleRequest tables env t fuel it w req with ⟨evs, cnt, it', w', ex⟩
    rw [hr] at hev
    simp only at hev
    cases ex with
    | errStatus s =>
      simp [sampleStreamGo, hr] at he
      exact hev e he
    | fuelOut =>
      simp [sampleStreamGo, hr] at he
      exact hev e he
    | done =>
      simp [sampleStreamGo, hr] at he
      rcases he with he | he
      · exact hev e he
      · exact ih it' w' e he
    | cancelledHit =>
      simp [sampleStreamGo, hr] at he
      rcases he with he | he
      · exact hev e he
      · exact ih it' w' e he

/-- C10: the rate-limiter timeout of a sample stream is computed once, from
the initial request; every `SampleFlexibleBatch` call of every request of
the stream uses the timeout derived from the first request, and the
`rate_limiter_timeout` field of subsequent requests is never read. -/
theorem sample_timeout_first_request_only (tables : List Table) (env : SampleEnv)
    (fuel : Nat) (req0 : SampleStreamRequest) (rest : List SampleStreamRequest) :
    ∀ e ∈ (sampleStream tables env fuel (req0 :: rest)).1,
      e.timeout = computeTimeout req0.rate_limiter_timeout := by
  intro e he
  simp only [sampleStream] at he
  exact sampleStreamGo_timeout tables env _ fuel (req0 :: rest) 0 0 e he

theorem sample_timeout_first_request_only_witness :
    (SampleCall.mk 0 1 (.finite 5)).timeout = computeTimeout demoSampleReq.rate_limiter_timeout :=
  sample_timeout_first_request_only [demoTable] sampleEnvDemo 3 demoSampleReq
    [demoSampleReq2] (SampleCall.mk 0 1 (.finite 5)) (by decide)
